import Mathlib

/-
Verification development for the inventory retrieval-and-aggregation pipeline
of `src/streamlit_app.py` (functions `fetch_steam_inventory`, lines 84-175,
and `analyze_inventories_for_streamlit`, lines 177-200).

The embedding is shallow: Python dictionaries that are built by insertion and
iterated in insertion order are modelled as association lists; JSON records
are modelled by structures whose fields are `Option`-valued exactly where the
Python code uses `dict.get`; the HTTP layer is modelled by a list of
`PageOutcome` values, one per request issued by the pagination loop, covering
the `except` branches of the source (timeout, other transport failure, body
not parseable as JSON) as well as a parsed page.
-/

set_option autoImplicit false

namespace STrades

/-- Models Python `int()` applied to a string (`int(asset.get('amount', 1))`,
line 120 of the source): optional surrounding ASCII whitespace, an optional
sign, then a nonempty run of decimal digits; anything else raises
`ValueError`, modelled as `none`. (Numeric-literal underscores are not
modelled.) -/
def pyInt? (s : String) : Option Int :=
  let l := s.data.dropWhile (fun c => c == ' ' || c == '\t' || c == '\n' || c == '\r')
  let l := (l.reverse.dropWhile (fun c => c == ' ' || c == '\t' || c == '\n' || c == '\r')).reverse
  let digitsVal : List Char → Int := fun ds =>
    Int.ofNat (ds.foldl (fun n c => n * 10 + (c.toNat - 48)) 0)
  match l with
  | '-' :: ds => if !ds.isEmpty && ds.all Char.isDigit then some (-(digitsVal ds)) else none
  | '+' :: ds => if !ds.isEmpty && ds.all Char.isDigit then some (digitsVal ds) else none
  | ds => if !ds.isEmpty && ds.all Char.isDigit then some (digitsVal ds) else none

/-- One record of the `assets` array of a page. `classid` is read with
`asset.get('classid')` (line 119), so it may be absent (`None`); `amount` is
read with `asset.get('amount', 1)` (line 120) and, when present, is the
string the Steam endpoint sends. -/
structure Asset where
  classid : Option String
  amount : Option String
deriving DecidableEq, Repr

/-- One record of the `descriptions` array of a page, holding exactly the
fields the source reads (lines 124, 151-152, 162-166). `tradable` and
`marketable` are the integer flags of the endpoint, read with a default of
`0`; `tags` is an opaque payload, modelled as a list of strings. -/
structure Desc where
  classid : Option String
  market_hash_name : Option String
  name : Option String
  icon_url : Option String
  tradable : Option Int
  marketable : Option Int
  tags : List String
deriving DecidableEq, Repr

/-- A parsed JSON-object response of the inventory endpoint, restricted to
the keys the source reads. `assets = some l` models the key being present
with value `l`; `more_items` models the truthiness of
`data.get('more_items')` (line 128); `last_assetid` is truthy only when it
is a nonempty string. -/
structure PageData where
  assets : Option (List Asset)
  descriptions : Option (List Desc)
  more_items : Bool
  last_assetid : Option String
  total_inventory_count : Option Int
deriving DecidableEq, Repr

/-- Outcome of one request of the pagination loop (lines 108-146):
`timeout` models `requests.exceptions.Timeout`; `netError` models any other
`requests.exceptions.RequestException` (including HTTP error statuses raised
by `raise_for_status`); `badJson` models `response.json()` raising
`ValueError`; `notDict` models a parsed body that is `None` or not a dict
(line 113); `page` is a parsed JSON-object body. -/
inductive PageOutcome where
  | timeout
  | netError
  | badJson
  | notDict
  | page (p : PageData)
deriving DecidableEq, Repr

/-- First-match association-list lookup, modelling Python dict indexing and
`in` tests (the dicts of the source have unique keys). -/
def lookupA {α β : Type} [DecidableEq α] : List (α × β) → α → Option β
  | [], _ => none
  | (a, b) :: rest, a' => if a = a' then some b else lookupA rest a'

/-- The running per-classId quantity table `asset_quantities` (line 91):
an insertion-ordered dict from `classid` to accumulated quantity. -/
abbrev QtyMap := List (Option String × Int)

/-- The first-seen-wins description table `all_descriptions` (line 92). -/
abbrev DescMap := List (Option String × Desc)

/-- Models `asset_quantities[classid] = asset_quantities.get(classid, 0) +
quantity` (line 121): update the entry in place when the key is present,
append it otherwise. -/
def updQty : QtyMap → Option String → Int → QtyMap
  | [], c, n => [(c, n)]
  | (c', m) :: rest, c, n =>
    if c' = c then (c', m + n) :: rest else (c', m) :: updQty rest c n

/-- The asset loop of one page (lines 118-121). `int()` raising `ValueError`
on an unparseable `amount` string aborts the page with `.error ()`; that
exception is caught at line 145 of the source. -/
def processAssets : List Asset → QtyMap → Except Unit QtyMap
  | [], q => .ok q
  | a :: rest, q =>
    match a.amount with
    | none => processAssets rest (updQty q a.classid 1)
    | some s =>
      match pyInt? s with
      | some n => processAssets rest (updQty q a.classid n)
      | none => .error ()

/-- One step of the description loop (lines 123-126): insert the record only
when its `classid` is not yet a key of the table. -/
def updDescs (d : DescMap) (desc : Desc) : DescMap :=
  if (lookupA d desc.classid).isSome then d else d ++ [(desc.classid, desc)]

/-- The description loop of one page (lines 123-126). -/
def applyDescs (descs : List Desc) (d : DescMap) : DescMap :=
  descs.foldl updDescs d

/-- Truthiness of `data.get('last_assetid')` (line 128): present and a
nonempty string. -/
def truthyOpt : Option String → Bool
  | none => false
  | some s => !s.isEmpty

/-- Truthiness test `not data.get('assets')` of line 134: the key is absent
or its value is the empty list. -/
def assetsFalsy (p : PageData) : Bool :=
  match p.assets with
  | none => true
  | some l => l.isEmpty

/-- The pagination loop of `fetch_steam_inventory` (lines 102-146). The
argument list holds the response to each successive request; `n` is
`page_count` for the page at the head. A request issued past the end of the
list has no modelled response (`model_no_response` cannot arise from a run
in which the loop terminates within the supplied responses). -/
def fetchLoop : List PageOutcome → Nat → QtyMap → DescMap →
    Except String (QtyMap × DescMap)
  | [], _, _, _ => .error "model_no_response"
  | .timeout :: _, _, _, _ => .error "request_timeout"
  | .netError :: _, _, _, _ => .error "network_error"
  | .badJson :: _, _, _, _ => .error "api_decode_error"
  | .notDict :: _, _, _, _ => .error "inventory_private_or_empty"
  | .page p :: rest, n, q, d =>
    match p.assets, p.descriptions with
    | some assets, some descs =>
      match processAssets assets q with
      | .error _ => .error "api_decode_error"
      | .ok q' =>
        if p.more_items && truthyOpt p.last_assetid then
          fetchLoop rest (n + 1) q' (applyDescs descs d)
        else
          .ok (q', applyDescs descs d)
    | _, _ =>
      if p.total_inventory_count.getD 0 = 0 && assetsFalsy p then
        .error "inventory_empty"
      else if n = 1 then
        .error "inventory_private_or_error"
      else
        .ok (q, d)

/-- Python string interpolation of a `classid` that may be `None`
(f-strings at lines 151 and 170). -/
def showC : Option String → String
  | none => "None"
  | some s => s

/-- The key of line 151:
`desc_obj.get('market_hash_name', desc_obj.get('name', f'Unknown Item {classid}'))`. -/
def descKey (desc : Desc) (c : Option String) : String :=
  desc.market_hash_name.getD (desc.name.getD ("Unknown Item " ++ showC c))

/-- Icon URL construction of lines 152-156, including `lstrip('/')`. -/
def iconUrlOf (desc : Desc) : String :=
  let suffix := desc.icon_url.getD ""
  if !suffix.isEmpty then
    "https://community.cloudflare.steamstatic.com/economy/image/" ++
      suffix.dropWhile (fun ch => ch = '/') ++ "/120x50"
  else
    ""

/-- An aggregated inventory item (the value dict of lines 159-167 and
171-174). -/
structure InventoryItem where
  quantity : Int
  icon_url : String
  name : String
  classid : Option String
  tradable : Bool
  marketable : Bool
  tags : List String
deriving DecidableEq, Repr

/-- The aggregated inventory `detailed_items_data`: an insertion-ordered
dict keyed by market hash name. -/
abbrev Items := List (String × InventoryItem)

/-- The zero-quantity record inserted at lines 159-167 when a key is seen
for the first time. -/
def itemOfDesc (desc : Desc) (c : Option String) : InventoryItem :=
  { quantity := 0
    icon_url := iconUrlOf desc
    name := desc.name.getD "Unknown Item"
    classid := c
    tradable := decide (desc.tradable.getD 0 = 1)
    marketable := decide (desc.marketable.getD 0 = 1)
    tags := desc.tags }

/-- Models `detailed_items_data[key]['quantity'] += quantity` (line 168):
add `n` to the quantity of the entry with the given key, if present. -/
def addQty : Items → String → Int → Items
  | [], _, _ => []
  | (k, it) :: rest, key, n =>
    if k = key then (k, { it with quantity := it.quantity + n }) :: rest
    else (k, it) :: addQty rest key n

/-- Models plain dict assignment `detailed_items_data[key] = value`
(line 171): replace in place when the key exists, append otherwise. -/
def setItem : Items → String → InventoryItem → Items
  | [], key, it => [(key, it)]
  | (k, o) :: rest, key, it =>
    if k = key then (key, it) :: rest else (k, o) :: setItem rest key it

/-- One iteration of the join loop (lines 148-174) for the entry
`(classid, quantity)` of `asset_quantities`. -/
def stepJoin (d : DescMap) (acc : Items) (c : Option String) (qty : Int) : Items :=
  match lookupA d c with
  | some desc =>
    let key := descKey desc c
    let acc1 := if (lookupA acc key).isSome then acc
                else acc ++ [(key, itemOfDesc desc c)]
    addQty acc1 key qty
  | none =>
    let key := "Unknown Item (ClassID: " ++ showC c ++ ")"
    setItem acc key
      { quantity := qty, icon_url := "", name := key, classid := c,
        tradable := false, marketable := false, tags := [] }

/-- The join loop of lines 148-174, iterating `asset_quantities` in
insertion order. -/
def joinStep (d : DescMap) : QtyMap → Items → Items
  | [], acc => acc
  | (c, qty) :: rest, acc => joinStep d rest (stepJoin d acc c qty)

/-- The full `fetch_steam_inventory` (lines 84-175) over a modelled sequence
of per-request outcomes: run the pagination loop with `page_count = 1` and
empty accumulators, then on success run the join. An error string is
returned alone, never with a partial inventory. -/
def fetch_steam_inventory (responses : List PageOutcome) :
    Except String Items :=
  match fetchLoop responses 1 [] [] with
  | .error e => .error e
  | .ok (q, d) => .ok (joinStep d q [])

/-- The three result mappings of `analyze_inventories_for_streamlit`
(lines 179-183). -/
structure DiffResult where
  fixed_user_tradable_duplicates : Items
  fixed_user_has_you_dont_dupes : Items
  you_have_fixed_user_doesnt_dupes : Items
deriving DecidableEq, Repr

/-- `analyze_inventories_for_streamlit` (lines 177-200): three linear scans
filtering on `quantity > 1`, `tradable`, and key absence from the other
inventory. -/
def analyze_inventories_for_streamlit (fixed_user_inv your_inv : Items) :
    DiffResult :=
  { fixed_user_tradable_duplicates :=
      fixed_user_inv.filter fun e => decide (1 < e.2.quantity) && e.2.tradable
    fixed_user_has_you_dont_dupes :=
      fixed_user_inv.filter fun e =>
        decide (1 < e.2.quantity) && e.2.tradable &&
          !(lookupA your_inv e.1).isSome
    you_have_fixed_user_doesnt_dupes :=
      your_inv.filter fun e =>
        decide (1 < e.2.quantity) && e.2.tradable &&
          !(lookupA fixed_user_inv e.1).isSome }

/-! Reference functions used in theorem statements. They recompute, directly
from a page list, the values the loop accumulates. -/

/-- The integer value `int(asset.get('amount', 1))` contributes for one
asset record (line 120); an unparseable string is mapped to `0` here, but
such records make the whole call fail, so the value is never used then. -/
def amountVal (a : Asset) : Int :=
  match a.amount with
  | none => 1
  | some s => (pyInt? s).getD 0

/-- Sum of the amounts of the asset records with classid `c` in one list. -/
def pageAmount (assets : List Asset) (c : Option String) : Int :=
  ((assets.filter fun a => decide (a.classid = c)).map amountVal).sum

/-- Sum of the amounts of the asset records with classid `c` across a page
sequence. -/
def totalAmount (pages : List PageData) (c : Option String) : Int :=
  (pages.map fun p => pageAmount (p.assets.getD []) c).sum

/-- All description records of a page sequence, in page order. -/
def allDescs (pages : List PageData) : List Desc :=
  (pages.map fun p => p.descriptions.getD []).flatten

/-- The first description record with classid `c` in a list. -/
def firstDescFor (descs : List Desc) (c : Option String) : Option Desc :=
  descs.find? fun dd => decide (dd.classid = c)

/-- Left-biased choice on options (first-seen-wins composition). -/
def orEl {α : Type} : Option α → Option α → Option α
  | some x, _ => some x
  | none, b => b

/-- `asset_quantities.get(classid, 0)`: accumulated quantity of a classid. -/
def qtyOf (q : QtyMap) (c : Option String) : Int :=
  (lookupA q c).getD 0

/-- The response supplies both the `assets` and `descriptions` keys
(line 116). -/
def fullPage (p : PageData) : Bool :=
  p.assets.isSome && p.descriptions.isSome

/-- The `amount` field of an asset record is absent or parseable. -/
def amountOk (a : Asset) : Bool :=
  match a.amount with
  | none => true
  | some s => (pyInt? s).isSome

/-- Every asset record of the page has an absent or parseable amount. -/
def amountsOkPage (p : PageData) : Bool :=
  (p.assets.getD []).all amountOk

/-- The pagination-continuation test of line 128:
`data.get('more_items') and data.get('last_assetid')`. -/
def continues (p : PageData) : Bool :=
  p.more_items && truthyOpt p.last_assetid

/-- A page the loop processes without raising: both keys present and all
amounts parseable. -/
def goodPage (p : PageData) : Bool :=
  fullPage p && amountsOkPage p

/-- A valid complete page sequence as produced by the endpoint's pagination
contract: every page processable, every page but the last signalling
continuation, the last one not. -/
def goodChain : List PageData → Bool
  | [] => false
  | [p] => goodPage p && !continues p
  | p :: p2 :: rest => goodPage p && continues p && goodChain (p2 :: rest)

/-- A page that is processed and continues pagination (an earlier page of a
run). -/
def goodCont (p : PageData) : Bool :=
  goodPage p && continues p

/-- Every asset record carried by this outcome has a positive amount value. -/
def posOutcome : PageOutcome → Bool
  | .page p => (p.assets.getD []).all fun a => decide (0 < amountVal a)
  | _ => true

/-- Every asset record of every page of the response sequence has a positive
amount value. -/
def posResponses (responses : List PageOutcome) : Bool :=
  responses.all posOutcome

/-- The `amount` field is a string that `int()` rejects. -/
def badAmount (a : Asset) : Bool :=
  match a.amount with
  | none => false
  | some s => (pyInt? s).isNone

/-- The market-hash-name key the join computes for a classid (lines 151 and
170). -/
def joinKey (d : DescMap) (c : Option String) : String :=
  match lookupA d c with
  | some desc => descKey desc c
  | none => "Unknown Item (ClassID: " ++ showC c ++ ")"

/-- Sum of the accumulated quantities of the classids that the join resolves
to key `k`. -/
def sumKey (d : DescMap) (q : QtyMap) (k : String) : Int :=
  ((q.filter fun e => decide (joinKey d e.1 = k)).map fun e => e.2).sum

/-- Quantity stored at key `k` of an aggregated inventory, `0` when the key
is absent. -/
def qtyAt (acc : Items) (k : String) : Int :=
  ((lookupA acc k).map fun it => it.quantity).getD 0

/-- Everything of an item except its quantity: the metadata the claims speak
about. -/
def metaOf (it : InventoryItem) :
    String × String × Option String × Bool × Bool × List String :=
  (it.icon_url, it.name, it.classid, it.tradable, it.marketable, it.tags)

/-- Accumulated quantity of classid `c` in the state a run of the pagination
loop ends with, `none` when the run ended in an error. -/
def okQty : Except String (QtyMap × DescMap) → Option String → Option Int
  | .ok (q, _), c => some (qtyOf q c)
  | .error _, _ => none

/-- Description associated to classid `c` in the state a run of the
pagination loop ends with, `none` when the run ended in an error. -/
def okDesc : Except String (QtyMap × DescMap) → Option String → Option (Option Desc)
  | .ok (_, d), c => some (lookupA d c)
  | .error _, _ => none

/-- The condition of line 134:
`data.get("total_inventory_count", 0) == 0 and not data.get('assets')`. -/
def emptySignal (p : PageData) : Bool :=
  decide (p.total_inventory_count.getD 0 = 0) && assetsFalsy p

/-! Concrete fixtures used by witness theorems and the counterexample. -/

/-- Fixture: description of classid `c1` on the first page (name `A`). -/
def descA1 : Desc :=
  { classid := some "c1", market_hash_name := some "HashA", name := some "A",
    icon_url := none, tradable := some 1, marketable := some 0, tags := [] }

/-- Fixture: a second description of classid `c1` on the second page
(name `B`). -/
def descB1 : Desc :=
  { classid := some "c1", market_hash_name := some "HashB", name := some "B",
    icon_url := none, tradable := some 1, marketable := some 0, tags := [] }

/-- Fixture: a first page that signals more pages. -/
def pageOne : PageData :=
  { assets := some [ { classid := some "c1", amount := some "2" },
                     { classid := some "c2", amount := none } ],
    descriptions := some [descA1],
    more_items := true, last_assetid := some "77",
    total_inventory_count := some 6 }

/-- Fixture: a final page. -/
def pageTwo : PageData :=
  { assets := some [ { classid := some "c1", amount := some "3" } ],
    descriptions := some [descB1],
    more_items := false, last_assetid := none,
    total_inventory_count := some 6 }

/-- Fixture: a response lacking both keys with a nonzero reported count. -/
def pageBare : PageData :=
  { assets := none, descriptions := none, more_items := false,
    last_assetid := none, total_inventory_count := some 6 }

/-- Fixture: a response lacking both keys and reporting an empty
inventory. -/
def pageEmptySig : PageData :=
  { assets := none, descriptions := none, more_items := false,
    last_assetid := none, total_inventory_count := some 0 }

/-- Fixture: a page with an asset whose `amount` string is not an
integer. -/
def pageBadAmount : PageData :=
  { assets := some [ { classid := some "c9", amount := some "many" } ],
    descriptions := some [], more_items := false, last_assetid := none,
    total_inventory_count := some 1 }

/-- Fixture: a description whose market hash name equals the key the join
synthesizes for the undescribed classid `2`. -/
def descCollide : Desc :=
  { classid := some "1", market_hash_name := some "Unknown Item (ClassID: 2)",
    name := some "A", icon_url := none, tradable := some 1,
    marketable := some 1, tags := [] }

/-- Fixture: a single page on which described classid `1` (quantity 3) and
undescribed classid `2` (quantity 5) resolve to the same key. -/
def pageCollide : PageData :=
  { assets := some [ { classid := some "1", amount := some "3" },
                     { classid := some "2", amount := some "5" } ],
    descriptions := some [descCollide],
    more_items := false, last_assetid := none,
    total_inventory_count := some 8 }

/-- Metadata of the entry created for the first classid of `q` that the
join resolves to key `k`, if any: a described classid contributes the
zero-quantity record of lines 159-167, an undescribed one the synthesized
record of lines 171-174. -/
def firstMetaFor (d : DescMap) (q : QtyMap) (k : String) :
    Option (String × String × Option String × Bool × Bool × List String) :=
  match q.find? fun e => decide (joinKey d e.1 = k) with
  | none => none
  | some e =>
    match lookupA d e.1 with
    | some desc => some (metaOf (itemOfDesc desc e.1))
    | none =>
      some (metaOf
        { quantity := e.2, icon_url := "",
          name := "Unknown Item (ClassID: " ++ showC e.1 ++ ")",
          classid := e.1, tradable := false, marketable := false,
          tags := [] })

/-- Quantity stored under key `k` of a successful fetch result, `none` on an
error or when the key is absent. -/
def okQuantityAt (r : Except String Items) (k : String) : Option Int :=
  match r with
  | .ok inv => (lookupA inv k).map fun it => it.quantity
  | .error _ => none

/-- Fixture: the inventory aggregated from `pageTwo` alone. -/
def invTwo : Items :=
  [("HashB",
    { quantity := 3, icon_url := "", name := "B", classid := some "c1",
      tradable := true, marketable := false, tags := [] })]

/-- Fixture: description of classid `c1` resolving to key `SameKey`. -/
def descM1 : Desc :=
  { classid := some "c1", market_hash_name := some "SameKey",
    name := some "M1", icon_url := none, tradable := some 1,
    marketable := some 0, tags := [] }

/-- Fixture: description of classid `c2` also resolving to key `SameKey`. -/
def descM2 : Desc :=
  { classid := some "c2", market_hash_name := some "SameKey",
    name := some "M2", icon_url := none, tradable := some 0,
    marketable := some 1, tags := [] }

/-- Fixture: accumulated quantities for two classids that merge. -/
def qMerge : QtyMap := [(some "c1", 2), (some "c2", 3)]

/-- Fixture: description table mapping both classids of `qMerge`. -/
def dMerge : DescMap := [(some "c1", descM1), (some "c2", descM2)]

/-- Fixture: the merged item the join produces at key `SameKey`. -/
def itMerge : InventoryItem :=
  { quantity := 5, icon_url := "", name := "M1", classid := some "c1",
    tradable := true, marketable := false, tags := [] }

/-! Basic lemmas about the association-list primitives. -/

theorem orEl_none_right {α : Type} (a : Option α) : orEl a none = a := by
  cases a <;> rfl

theorem orEl_assoc {α : Type} (a b c : Option α) :
    orEl (orEl a b) c = orEl a (orEl b c) := by
  cases a <;> rfl

theorem lookupA_append {α β : Type} [DecidableEq α] (l m : List (α × β)) (a : α) :
    lookupA (l ++ m) a = orEl (lookupA l a) (lookupA m a) := by
  induction l with
  | nil => simp [lookupA, orEl]
  | cons e rest ih =>
    obtain ⟨k, v⟩ := e
    by_cases h : k = a <;> simp [lookupA, h, ih, orEl]

theorem lookupA_updQty_self (q : QtyMap) (c : Option String) (n : Int) :
    lookupA (updQty q c n) c = some (qtyOf q c + n) := by
  induction q with
  | nil => simp [updQty, lookupA, qtyOf]
  | cons e rest ih =>
    obtain ⟨k, v⟩ := e
    by_cases h : k = c
    · subst h; simp [updQty, lookupA, qtyOf]
    · simp [updQty, lookupA, h, ih, qtyOf]

theorem lookupA_updQty_ne (q : QtyMap) (c c' : Option String) (n : Int)
    (h : c' ≠ c) : lookupA (updQty q c n) c' = lookupA q c' := by
  induction q with
  | nil => simp [updQty, lookupA, Ne.symm h]
  | cons e rest ih =>
    obtain ⟨k, v⟩ := e
    by_cases hk : k = c
    · subst hk
      simp [updQty, lookupA, Ne.symm h]
    · simp [updQty, lookupA, hk, ih]

theorem qtyOf_updQty (q : QtyMap) (c c' : Option String) (n : Int) :
    qtyOf (updQty q c n) c' = qtyOf q c' + (if c = c' then n else 0) := by
  by_cases h : c = c'
  · subst h; simp [qtyOf, lookupA_updQty_self]
  · simp [qtyOf, lookupA_updQty_ne q c c' n (fun hh => h hh.symm), h]

theorem pageAmount_nil (c : Option String) : pageAmount [] c = 0 := rfl

theorem pageAmount_cons (a : Asset) (rest : List Asset) (c : Option String) :
    pageAmount (a :: rest) c =
      (if a.classid = c then amountVal a else 0) + pageAmount rest c := by
  by_cases h : a.classid = c <;> simp [pageAmount, List.filter_cons, h]

theorem processAssets_qty (assets : List Asset) :
    ∀ q q', processAssets assets q = .ok q' →
      ∀ c, qtyOf q' c = qtyOf q c + pageAmount assets c := by
  induction assets with
  | nil =>
    intro q q' h c
    simp [processAssets] at h
    simp [h, pageAmount_nil]
  | cons a rest ih =>
    intro q q' h c
    rw [pageAmount_cons]
    rcases ha : a.amount with _ | s
    · simp only [processAssets, ha] at h
      have := ih _ _ h c
      rw [this, qtyOf_updQty]
      have hv : amountVal a = 1 := by simp [amountVal, ha]
      rw [hv]
      by_cases hc : a.classid = c <;> simp [hc] <;> ring
    · simp only [processAssets, ha] at h
      rcases hp : pyInt? s with _ | n
      · simp only [hp] at h; simp at h
      · simp only [hp] at h
        have := ih _ _ h c
        rw [this, qtyOf_updQty]
        have hv : amountVal a = n := by simp [amountVal, ha, hp]
        rw [hv]
        by_cases hc : a.classid = c <;> simp [hc] <;> ring

theorem processAssets_isOk (assets : List Asset)
    (h : assets.all amountOk = true) :
    ∀ q, ∃ q', processAssets assets q = .ok q' := by
  induction assets with
  | nil => intro q; exact ⟨q, rfl⟩
  | cons a rest ih =>
    intro q
    simp only [List.all_cons, Bool.and_eq_true] at h
    rcases ha : a.amount with _ | s
    · exact (ih h.2 (updQty q a.classid 1)).imp fun q' hq' => by
        simp only [processAssets, ha]; exact hq'
    · have hok := h.1
      simp only [amountOk, ha] at hok
      rcases hp : pyInt? s with _ | n
      · simp only [hp] at hok; simp at hok
      · exact (ih h.2 (updQty q a.classid n)).imp fun q' hq' => by
          simp only [processAssets, ha, hp]; exact hq'

theorem processAssets_bad (assets : List Asset)
    (h : assets.any badAmount = true) :
    ∀ q, processAssets assets q = .error () := by
  induction assets with
  | nil => simp at h
  | cons a rest ih =>
    intro q
    simp only [List.any_cons, Bool.or_eq_true] at h
    rcases ha : a.amount with _ | s
    · have hrest : rest.any badAmount = true := by
        rcases h with h | h
        · simp only [badAmount, ha] at h; simp at h
        · exact h
      simp only [processAssets, ha]; exact ih hrest _
    · rcases hp : pyInt? s with _ | n
      · simp only [processAssets, ha, hp]
      · have hrest : rest.any badAmount = true := by
          rcases h with h | h
          · simp only [badAmount, ha, hp] at h; simp at h
          · exact h
        simp only [processAssets, ha, hp]; exact ih hrest _

theorem updQty_pos (q : QtyMap) (c : Option String) (n : Int)
    (hq : ∀ e ∈ q, 1 ≤ e.2) (hn : 1 ≤ n) :
    ∀ e ∈ updQty q c n, 1 ≤ e.2 := by
  induction q with
  | nil =>
    intro e he
    simp [updQty] at he
    simp [he, hn]
  | cons p rest ih =>
    obtain ⟨k, v⟩ := p
    intro e he
    by_cases hk : k = c
    · subst hk
      simp [updQty] at he
      rcases he with he | he
      · have hv : (1 : Int) ≤ v := hq (k, v) (by simp)
        simp [he]; omega
      · exact hq e (by simp [he])
    · simp [updQty, hk] at he
      rcases he with he | he
      · exact hq e (by simp [he])
      · exact ih (fun e' he' => hq e' (by simp [he'])) e he

theorem processAssets_pos (assets : List Asset) :
    ∀ q q', processAssets assets q = .ok q' →
      (∀ a ∈ assets, 0 < amountVal a) →
      (∀ e ∈ q, 1 ≤ e.2) → ∀ e ∈ q', 1 ≤ e.2 := by
  induction assets with
  | nil =>
    intro q q' h _ hq
    simp [processAssets] at h
    exact h ▸ hq
  | cons a rest ih =>
    intro q q' h hpos hq
    rcases ha : a.amount with _ | s
    · simp only [processAssets, ha] at h
      have h1 : (1 : Int) ≤ 1 := le_refl 1
      exact ih _ _ h (fun x hx => hpos x (by simp [hx]))
        (updQty_pos q a.classid 1 hq h1)
    · simp only [processAssets, ha] at h
      rcases hp : pyInt? s with _ | n
      · simp only [hp] at h; simp at h
      · simp only [hp] at h
        have hv : amountVal a = n := by simp [amountVal, ha, hp]
        have hn : (1 : Int) ≤ n := by
          have := hpos a (by simp)
          rw [hv] at this; omega
        exact ih _ _ h (fun x hx => hpos x (by simp [hx]))
          (updQty_pos q a.classid n hq hn)

/-! Lemmas about the first-seen-wins description table. -/

theorem firstDescFor_nil (c : Option String) : firstDescFor [] c = none := rfl

theorem firstDescFor_cons (dd : Desc) (rest : List Desc) (c : Option String) :
    firstDescFor (dd :: rest) c =
      if dd.classid = c then some dd else firstDescFor rest c := by
  by_cases h : dd.classid = c <;> simp [firstDescFor, List.find?_cons, h]

theorem firstDescFor_append (l1 l2 : List Desc) (c : Option String) :
    firstDescFor (l1 ++ l2) c = orEl (firstDescFor l1 c) (firstDescFor l2 c) := by
  induction l1 with
  | nil => simp [firstDescFor_nil, orEl]
  | cons dd rest ih =>
    by_cases h : dd.classid = c <;>
      simp [firstDescFor_cons, h, ih, orEl]

theorem lookupA_applyDescs (descs : List Desc) :
    ∀ (d : DescMap) (c : Option String),
      lookupA (applyDescs descs d) c = orEl (lookupA d c) (firstDescFor descs c) := by
  induction descs with
  | nil =>
    intro d c
    rw [applyDescs, List.foldl_nil, firstDescFor_nil, orEl_none_right]
  | cons dd rest ih =>
    intro d c
    have hstep : applyDescs (dd :: rest) d = applyDescs rest (updDescs d dd) := by
      rw [applyDescs, List.foldl_cons]; rfl
    rw [hstep, ih, firstDescFor_cons]
    by_cases hin : (lookupA d dd.classid).isSome
    · have hupd : updDescs d dd = d := by simp [updDescs, hin]
      rw [hupd]
      by_cases hc : dd.classid = c
      · rcases Option.isSome_iff_exists.mp (hc ▸ hin) with ⟨x, hx⟩
        rw [if_pos hc, hx]
        rfl
      · rw [if_neg hc]
    · have hupd : updDescs d dd = d ++ [(dd.classid, dd)] := by
        simp only [updDescs, hin, if_false]
        simp [hin]
      rw [hupd, lookupA_append, orEl_assoc]
      congr 1
      by_cases hc : dd.classid = c <;> simp [lookupA, hc, orEl]

/-! Lemmas about the pagination loop. -/

theorem fetchLoop_prior (prior : List PageData) :
    prior.all goodCont = true →
    ∀ (tail : List PageOutcome) (n : Nat) (q : QtyMap) (d : DescMap),
      ∃ q' d',
        fetchLoop (prior.map PageOutcome.page ++ tail) n q d =
          fetchLoop tail (n + prior.length) q' d' ∧
        (∀ c, qtyOf q' c = qtyOf q c + totalAmount prior c) ∧
        (∀ c, lookupA d' c =
          orEl (lookupA d c) (firstDescFor (allDescs prior) c)) := by
  induction prior with
  | nil =>
    intro _ tail n q d
    refine ⟨q, d, by simp, fun c => by simp [totalAmount], fun c => ?_⟩
    simp [allDescs, firstDescFor_nil, orEl_none_right]
  | cons p rest ih =>
    intro h tail n q d
    simp only [List.all_cons, Bool.and_eq_true] at h
    obtain ⟨hp, hrest⟩ := h
    simp only [goodCont, goodPage, Bool.and_eq_true] at hp
    obtain ⟨⟨hfull, hok⟩, hcont⟩ := hp
    simp only [fullPage, Bool.and_eq_true, Option.isSome_iff_exists] at hfull
    obtain ⟨⟨as, ha⟩, ⟨ds, hd⟩⟩ := hfull
    have hok' : as.all amountOk = true := by
      simpa [amountsOkPage, ha] using hok
    obtain ⟨q1, hq1⟩ := processAssets_isOk as hok' q
    have hcont' : (p.more_items && truthyOpt p.last_assetid) = true := hcont
    have hone :
        fetchLoop ((p :: rest).map PageOutcome.page ++ tail) n q d =
          fetchLoop (rest.map PageOutcome.page ++ tail) (n + 1) q1
            (applyDescs ds d) := by
      simp only [List.map_cons, List.cons_append, fetchLoop, ha, hd, hq1,
        hcont', if_true]
      rfl
    obtain ⟨q', d', heq, hqty, hdesc⟩ :=
      ih hrest tail (n + 1) q1 (applyDescs ds d)
    refine ⟨q', d', ?_, fun c => ?_, fun c => ?_⟩
    · rw [hone, heq]
      have : n + 1 + rest.length = n + (p :: rest).length := by
        simp [List.length_cons]; omega
      rw [this]
    · have h1 := processAssets_qty as q q1 hq1 c
      have h2 : totalAmount (p :: rest) c = pageAmount as c + totalAmount rest c := by
        simp [totalAmount, ha]
      rw [hqty c, h1, h2]
      ring
    · have h2 : allDescs (p :: rest) = ds ++ allDescs rest := by
        simp [allDescs, hd]
      rw [hdesc c, lookupA_applyDescs, h2, firstDescFor_append, orEl_assoc]

theorem fetchLoop_goodChain (pages : List PageData) :
    goodChain pages = true →
    ∀ (n : Nat) (q : QtyMap) (d : DescMap),
      ∃ q' d',
        fetchLoop (pages.map PageOutcome.page) n q d = .ok (q', d') ∧
        (∀ c, qtyOf q' c = qtyOf q c + totalAmount pages c) ∧
        (∀ c, lookupA d' c =
          orEl (lookupA d c) (firstDescFor (allDescs pages) c)) := by
  induction pages with
  | nil => intro h; simp [goodChain] at h
  | cons p rest ih =>
    intro h n q d
    cases rest with
    | nil =>
      simp only [goodChain, goodPage, Bool.and_eq_true] at h
      obtain ⟨⟨hfull, hok⟩, hlast⟩ := h
      simp only [fullPage, Bool.and_eq_true, Option.isSome_iff_exists] at hfull
      obtain ⟨⟨as, ha⟩, ⟨ds, hd⟩⟩ := hfull
      have hok' : as.all amountOk = true := by
        simpa [amountsOkPage, ha] using hok
      obtain ⟨q1, hq1⟩ := processAssets_isOk as hok' q
      have hcont' : (p.more_items && truthyOpt p.last_assetid) = false := by
        have h0 : (!(p.more_items && truthyOpt p.last_assetid)) = true := hlast
        simpa only [Bool.not_eq_true'] using h0
      refine ⟨q1, applyDescs ds d, ?_, fun c => ?_, fun c => ?_⟩
      · simp only [List.map_cons, List.map_nil, fetchLoop, ha, hd, hq1,
          hcont', if_false]
        simp
      · have h1 := processAssets_qty as q q1 hq1 c
        have h2 : totalAmount [p] c = pageAmount as c := by
          simp [totalAmount, ha]
        rw [h1, h2]
      · have h2 : allDescs [p] = ds := by simp [allDescs, hd]
        rw [lookupA_applyDescs, h2]
    | cons p2 rest2 =>
      simp only [goodChain, goodPage, Bool.and_eq_true] at h
      obtain ⟨⟨⟨hfull, hok⟩, hcont⟩, hchain⟩ := h
      simp only [fullPage, Bool.and_eq_true, Option.isSome_iff_exists] at hfull
      obtain ⟨⟨as, ha⟩, ⟨ds, hd⟩⟩ := hfull
      have hok' : as.all amountOk = true := by
        simpa [amountsOkPage, ha] using hok
      obtain ⟨q1, hq1⟩ := processAssets_isOk as hok' q
      have hcont' : (p.more_items && truthyOpt p.last_assetid) = true := hcont
      have hone :
          fetchLoop ((p :: p2 :: rest2).map PageOutcome.page) n q d =
            fetchLoop ((p2 :: rest2).map PageOutcome.page) (n + 1) q1
              (applyDescs ds d) := by
        simp only [List.map_cons, fetchLoop, ha, hd, hq1, hcont', if_true]
      obtain ⟨q', d', heq, hqty, hdesc⟩ :=
        ih hchain (n + 1) q1 (applyDescs ds d)
      refine ⟨q', d', ?_, fun c => ?_, fun c => ?_⟩
      · rw [hone, heq]
      · have h1 := processAssets_qty as q q1 hq1 c
        have h2 : totalAmount (p :: p2 :: rest2) c =
            pageAmount as c + totalAmount (p2 :: rest2) c := by
          simp [totalAmount, ha]
        rw [hqty c, h1, h2]
        ring
      · have h2 : allDescs (p :: p2 :: rest2) = ds ++ allDescs (p2 :: rest2) := by
          simp [allDescs, hd]
        rw [hdesc c, lookupA_applyDescs, h2, firstDescFor_append, orEl_assoc]

/-! Claim theorems for the pagination loop. -/

/-- Claim C1: for every valid page sequence returned by the inventory
endpoint, the quantity `fetch_steam_inventory` accumulates for each classId
equals the sum of the integer values of the `amount` fields of all asset
records with that classId across all pages, an asset record without
`amount` contributing 1. -/
theorem claim1_quantity_per_classid (pages : List PageData) (c : Option String)
    (h : goodChain pages = true) :
    okQty (fetchLoop (pages.map PageOutcome.page) 1 [] []) c =
      some (totalAmount pages c) := by
  obtain ⟨q', d', heq, hqty, _⟩ := fetchLoop_goodChain pages h 1 [] []
  have h0 := hqty c
  have hz : qtyOf ([] : QtyMap) c = 0 := rfl
  rw [hz, zero_add] at h0
  rw [heq, okQty, h0]

/-- Witness for C1: on the two concrete pages, classid `c1` accumulates
`2 + 3 = 5`. -/
theorem claim1_quantity_per_classid_witness :
    goodChain [pageOne, pageTwo] = true ∧
    totalAmount [pageOne, pageTwo] (some "c1") = 5 ∧
    okQty (fetchLoop ([pageOne, pageTwo].map PageOutcome.page) 1 [] [])
        (some "c1") =
      some (totalAmount [pageOne, pageTwo] (some "c1")) :=
  ⟨by decide, by decide,
    claim1_quantity_per_classid [pageOne, pageTwo] (some "c1") (by decide)⟩

/-- Claim C2: for every valid page sequence, the description associated to a
classId is the first description record with that classId in page order;
later records with the same classId are ignored. -/
theorem claim2_description_first_seen (pages : List PageData) (c : Option String)
    (h : goodChain pages = true) :
    okDesc (fetchLoop (pages.map PageOutcome.page) 1 [] []) c =
      some (firstDescFor (allDescs pages) c) := by
  obtain ⟨q', d', heq, _, hdesc⟩ := fetchLoop_goodChain pages h 1 [] []
  have h0 := hdesc c
  have hz : lookupA ([] : DescMap) c = none := rfl
  rw [hz] at h0
  rw [heq, okDesc, h0]
  rfl

/-- Witness for C2: classid `c1` appears with name `A` on page one and name
`B` on page two; the table keeps the page-one record. -/
theorem claim2_description_first_seen_witness :
    goodChain [pageOne, pageTwo] = true ∧
    firstDescFor (allDescs [pageOne, pageTwo]) (some "c1") = some descA1 ∧
    okDesc (fetchLoop ([pageOne, pageTwo].map PageOutcome.page) 1 [] [])
        (some "c1") =
      some (firstDescFor (allDescs [pageOne, pageTwo]) (some "c1")) :=
  ⟨by decide, by decide,
    claim2_description_first_seen [pageOne, pageTwo] (some "c1") (by decide)⟩

/-- Claim C5: after any run of earlier valid continuing pages, a request
that times out makes `fetch_steam_inventory` return `"request_timeout"`,
any other transport failure makes it return `"network_error"`, and a body
that is not parseable as JSON makes it return `"api_decode_error"`; in each
case the result is the error string alone (the `Except` carries no
inventory). -/
theorem claim5_transport_errors (prior : List PageData)
    (rest : List PageOutcome) (h : prior.all goodCont = true) :
    fetch_steam_inventory
        (prior.map PageOutcome.page ++ PageOutcome.timeout :: rest) =
      .error "request_timeout" ∧
    fetch_steam_inventory
        (prior.map PageOutcome.page ++ PageOutcome.netError :: rest) =
      .error "network_error" ∧
    fetch_steam_inventory
        (prior.map PageOutcome.page ++ PageOutcome.badJson :: rest) =
      .error "api_decode_error" := by
  refine ⟨?_, ?_, ?_⟩
  · obtain ⟨q', d', heq, -, -⟩ :=
      fetchLoop_prior prior h (PageOutcome.timeout :: rest) 1 [] []
    rw [fetch_steam_inventory, heq, fetchLoop]
  · obtain ⟨q', d', heq, -, -⟩ :=
      fetchLoop_prior prior h (PageOutcome.netError :: rest) 1 [] []
    rw [fetch_steam_inventory, heq, fetchLoop]
  · obtain ⟨q', d', heq, -, -⟩ :=
      fetchLoop_prior prior h (PageOutcome.badJson :: rest) 1 [] []
    rw [fetch_steam_inventory, heq, fetchLoop]

/-- Witness for C5: after one good page, each of the three failure outcomes
produces its error string. -/
theorem claim5_transport_errors_witness :
    [pageOne].all goodCont = true ∧
    (fetch_steam_inventory
        ([pageOne].map PageOutcome.page ++ [PageOutcome.timeout]) =
      .error "request_timeout" ∧
    fetch_steam_inventory
        ([pageOne].map PageOutcome.page ++ [PageOutcome.netError]) =
      .error "network_error" ∧
    fetch_steam_inventory
        ([pageOne].map PageOutcome.page ++ [PageOutcome.badJson]) =
      .error "api_decode_error") :=
  ⟨by decide, claim5_transport_errors [pageOne] [] (by decide)⟩

/-- Claim C10: an asset record whose `amount` string is not parseable as an
integer makes `fetch_steam_inventory` return `"api_decode_error"` (the
`int()` `ValueError` is caught by the handler that also covers JSON decode
failures), with no partial inventory. -/
theorem claim10_bad_amount_decode_error (prior : List PageData) (p : PageData)
    (rest : List PageOutcome) (h : prior.all goodCont = true)
    (ha : p.assets.isSome = true) (hd : p.descriptions.isSome = true)
    (hbad : (p.assets.getD []).any badAmount = true) :
    fetch_steam_inventory (prior.map PageOutcome.page ++ PageOutcome.page p :: rest) =
      .error "api_decode_error" := by
  obtain ⟨q', d', heq, -, -⟩ :=
    fetchLoop_prior prior h (PageOutcome.page p :: rest) 1 [] []
  rcases Option.isSome_iff_exists.mp ha with ⟨as, has⟩
  rcases Option.isSome_iff_exists.mp hd with ⟨ds, hds⟩
  have hbad' : as.any badAmount = true := by simpa [has] using hbad
  have hpa : processAssets as q' = .error () := processAssets_bad as hbad' q'
  rw [fetch_steam_inventory, heq]
  simp only [fetchLoop, has, hds, hpa]

/-- Witness for C10: a page whose only asset has `amount = "many"` yields
`api_decode_error` after one good page. -/
theorem claim10_bad_amount_decode_error_witness :
    [pageOne].all goodCont = true ∧
    pageBadAmount.assets.isSome = true ∧
    pageBadAmount.descriptions.isSome = true ∧
    (pageBadAmount.assets.getD []).any badAmount = true ∧
    fetch_steam_inventory
        ([pageOne].map PageOutcome.page ++ [PageOutcome.page pageBadAmount]) =
      .error "api_decode_error" :=
  ⟨by decide, by decide, by decide, by decide,
    claim10_bad_amount_decode_error [pageOne] pageBadAmount [] (by decide)
      (by decide) (by decide) (by decide)⟩

/-- Claim C4: a well-formed JSON-object response lacking `assets` or
`descriptions` yields exactly one of three outcomes: `"inventory_empty"`
when it reports a zero total count and no assets; `"inventory_private_or_error"`
otherwise when it is the first page; otherwise pagination ends and the data
aggregated from the earlier pages is joined and returned successfully. -/
theorem claim4_keyless_response_outcomes (prior : List PageData) (p : PageData)
    (rest : List PageOutcome) (hprior : prior.all goodCont = true)
    (hnb : (p.assets.isSome && p.descriptions.isSome) = false) :
    (emptySignal p = true →
      fetch_steam_inventory
          (prior.map PageOutcome.page ++ PageOutcome.page p :: rest) =
        .error "inventory_empty") ∧
    (emptySignal p = false → prior = [] →
      fetch_steam_inventory
          (prior.map PageOutcome.page ++ PageOutcome.page p :: rest) =
        .error "inventory_private_or_error") ∧
    (emptySignal p = false → prior ≠ [] →
      ∃ q' d',
        fetch_steam_inventory
            (prior.map PageOutcome.page ++ PageOutcome.page p :: rest) =
          .ok (joinStep d' q' []) ∧
        (∀ c, qtyOf q' c = totalAmount prior c) ∧
        (∀ c, lookupA d' c = firstDescFor (allDescs prior) c)) := by
  obtain ⟨q', d', heq, hqty, hdesc⟩ :=
    fetchLoop_prior prior hprior (PageOutcome.page p :: rest) 1 [] []
  have hmatch :
      fetchLoop (PageOutcome.page p :: rest) (1 + prior.length) q' d' =
        if emptySignal p = true then .error "inventory_empty"
        else if 1 + prior.length = 1 then .error "inventory_private_or_error"
        else .ok (q', d') := by
    rcases hA : p.assets with _ | as <;> rcases hD : p.descriptions with _ | ds
    · simp only [fetchLoop, hA, hD, emptySignal, assetsFalsy]
    · simp only [fetchLoop, hA, hD, emptySignal, assetsFalsy]
    · simp only [fetchLoop, hA, hD, emptySignal, assetsFalsy]
    · simp [hA, hD] at hnb
  refine ⟨fun hz => ?_, fun hz h0 => ?_, fun hz h0 => ?_⟩
  · rw [fetch_steam_inventory, heq, hmatch, if_pos hz]
  · subst h0
    rw [fetch_steam_inventory, heq, hmatch, if_neg (by simp [hz])]
    simp
  · have hne : ¬(1 + prior.length = 1) := by
      cases prior with
      | nil => exact absurd rfl h0
      | cons a l => simp
    rw [fetch_steam_inventory, heq, hmatch, if_neg (by simp [hz]), if_neg hne]
    refine ⟨q', d', rfl, fun c => ?_, fun c => ?_⟩
    · have := hqty c
      rwa [show qtyOf ([] : QtyMap) c = 0 from rfl, zero_add] at this
    · have := hdesc c
      rwa [show lookupA ([] : DescMap) c = none from rfl] at this

/-- Witness for C4: the empty signal on a later page returns
`"inventory_empty"`; a bare later page after one good page ends pagination
and returns the joined page-one data. -/
theorem claim4_keyless_response_outcomes_witness :
    [pageOne].all goodCont = true ∧
    (pageBare.assets.isSome && pageBare.descriptions.isSome) = false ∧
    emptySignal pageBare = false ∧
    (∃ q' d',
      fetch_steam_inventory
          ([pageOne].map PageOutcome.page ++ [PageOutcome.page pageBare]) =
        .ok (joinStep d' q' []) ∧
      (∀ c, qtyOf q' c = totalAmount [pageOne] c) ∧
      (∀ c, lookupA d' c = firstDescFor (allDescs [pageOne]) c)) :=
  ⟨by decide, by decide, by decide,
    (claim4_keyless_response_outcomes [pageOne] pageBare [] (by decide)
        (by decide)).2.2 (by decide) (by decide)⟩

/-! Lemmas about the join step. -/

theorem lookupA_addQty (acc : Items) (key : String) (n : Int) (k : String) :
    lookupA (addQty acc key n) k =
      if k = key then
        (lookupA acc k).map fun it => { it with quantity := it.quantity + n }
      else lookupA acc k := by
  induction acc with
  | nil => by_cases h : k = key <;> simp [addQty, lookupA, h]
  | cons e rest ih =>
    obtain ⟨k0, it0⟩ := e
    by_cases h0 : k0 = key
    · subst h0
      by_cases hk : k0 = k
      · subst hk
        simp [addQty, lookupA]
      · simp [addQty, lookupA, hk, Ne.symm hk]
    · by_cases hk : k0 = k
      · subst hk
        have : ¬(k0 = key) := h0
        simp [addQty, lookupA, this, h0]
      · simp [addQty, lookupA, h0, hk, ih]

theorem lookupA_setItem (acc : Items) (key : String) (it : InventoryItem)
    (k : String) :
    lookupA (setItem acc key it) k =
      if k = key then some it else lookupA acc k := by
  induction acc with
  | nil =>
    by_cases h : k = key
    · simp [setItem, lookupA, h]
    · simp [setItem, lookupA, h, Ne.symm h]
  | cons e rest ih =>
    obtain ⟨k0, o⟩ := e
    by_cases h0 : k0 = key
    · subst h0
      by_cases hk : k0 = k
      · subst hk
        simp [setItem, lookupA]
      · simp [setItem, lookupA, hk, Ne.symm hk]
    · by_cases hk : k0 = k
      · subst hk
        simp [setItem, lookupA, h0]
      · simp [setItem, lookupA, h0, hk, ih]

theorem addQty_append_fresh (acc : Items) (key : String) (it : InventoryItem)
    (n : Int) (h : lookupA acc key = none) :
    addQty (acc ++ [(key, it)]) key n =
      acc ++ [(key, { it with quantity := it.quantity + n })] := by
  induction acc with
  | nil => simp [addQty]
  | cons e rest ih =>
    obtain ⟨k0, o⟩ := e
    have h0 : ¬(k0 = key) := by
      intro hk
      rw [lookupA, if_pos hk] at h
      cases h
    have hrest : lookupA rest key = none := by
      rwa [lookupA, if_neg h0] at h
    simp [addQty, h0, ih hrest]

theorem addQty_pos (acc : Items) (key : String) (n : Int)
    (hacc : ∀ e ∈ acc, 1 ≤ e.2.quantity) (hn : 1 ≤ n) :
    ∀ e ∈ addQty acc key n, 1 ≤ e.2.quantity := by
  induction acc with
  | nil => intro e he; simp [addQty] at he
  | cons p rest ih =>
    obtain ⟨k0, it0⟩ := p
    intro e he
    by_cases h0 : k0 = key
    · subst h0
      simp only [addQty, if_pos rfl] at he
      rcases List.mem_cons.mp he with he | he
      · have h1 : (1 : Int) ≤ it0.quantity := hacc (k0, it0) (by simp)
        subst he
        simp only
        omega
      · exact hacc e (by simp [he])
    · simp only [addQty, if_neg h0] at he
      rcases List.mem_cons.mp he with he | he
      · subst he
        exact hacc (k0, it0) (by simp)
      · exact ih (fun x hx => hacc x (by simp [hx])) e he

theorem setItem_pos (acc : Items) (key : String) (it : InventoryItem)
    (hacc : ∀ e ∈ acc, 1 ≤ e.2.quantity) (hit : 1 ≤ it.quantity) :
    ∀ e ∈ setItem acc key it, 1 ≤ e.2.quantity := by
  induction acc with
  | nil =>
    intro e he
    simp [setItem] at he
    simp [he, hit]
  | cons p rest ih =>
    obtain ⟨k0, o⟩ := p
    intro e he
    by_cases h0 : k0 = key
    · simp only [setItem, if_pos h0] at he
      rcases List.mem_cons.mp he with he | he
      · subst he; exact hit
      · exact hacc e (by simp [he])
    · simp only [setItem, if_neg h0] at he
      rcases List.mem_cons.mp he with he | he
      · subst he
        exact hacc (k0, o) (by simp)
      · exact ih (fun x hx => hacc x (by simp [hx])) e he

theorem stepJoin_pos (d : DescMap) (acc : Items) (c : Option String) (n : Int)
    (hacc : ∀ e ∈ acc, 1 ≤ e.2.quantity) (hn : 1 ≤ n) :
    ∀ e ∈ stepJoin d acc c n, 1 ≤ e.2.quantity := by
  rcases hd : lookupA d c with _ | desc
  · simp only [stepJoin, hd]
    exact setItem_pos acc _ _ hacc (by simpa using hn)
  · simp only [stepJoin, hd]
    by_cases hin : (lookupA acc (descKey desc c)).isSome
    · rw [if_pos hin]
      exact addQty_pos acc _ n hacc hn
    · rw [if_neg hin]
      have hnone : lookupA acc (descKey desc c) = none :=
        Option.not_isSome_iff_eq_none.mp hin
      rw [addQty_append_fresh acc _ _ n hnone]
      intro e he
      rcases List.mem_append.mp he with he | he
      · exact hacc e he
      · simp at he
        subst he
        simp [itemOfDesc]
        omega

theorem joinStep_pos (d : DescMap) (q : QtyMap) :
    (∀ e ∈ q, 1 ≤ e.2) →
    ∀ acc, (∀ e ∈ acc, 1 ≤ e.2.quantity) →
      ∀ e ∈ joinStep d q acc, 1 ≤ e.2.quantity := by
  induction q with
  | nil =>
    intro _ acc hacc e he
    exact hacc e he
  | cons p rest ih =>
    obtain ⟨c, n⟩ := p
    intro hq acc hacc
    have hn : (1 : Int) ≤ n := hq (c, n) (by simp)
    exact ih (fun x hx => hq x (by simp [hx])) (stepJoin d acc c n)
      (stepJoin_pos d acc c n hacc hn)

theorem fetchLoop_pos (responses : List PageOutcome) :
    ∀ (n : Nat) (q : QtyMap) (d : DescMap) (q' : QtyMap) (d' : DescMap),
      fetchLoop responses n q d = .ok (q', d') →
      posResponses responses = true →
      (∀ e ∈ q, 1 ≤ e.2) → ∀ e ∈ q', 1 ≤ e.2 := by
  induction responses with
  | nil =>
    intro n q d q' d' h _ _
    simp [fetchLoop] at h
  | cons r rest ih =>
    intro n q d q' d' h hpos hq
    have hps : posOutcome r = true ∧ posResponses rest = true := by
      simpa [posResponses] using hpos
    cases r with
    | timeout => simp [fetchLoop] at h
    | netError => simp [fetchLoop] at h
    | badJson => simp [fetchLoop] at h
    | notDict => simp [fetchLoop] at h
    | page p =>
      rcases hA : p.assets with _ | as <;>
        rcases hD : p.descriptions with _ | ds <;>
        simp only [fetchLoop, hA, hD] at h
      · split at h
        · exact Except.noConfusion h
        · split at h
          · exact Except.noConfusion h
          · obtain ⟨rfl, rfl⟩ : q = q' ∧ d = d' := by simpa using h
            exact hq
      · split at h
        · exact Except.noConfusion h
        · split at h
          · exact Except.noConfusion h
          · obtain ⟨rfl, rfl⟩ : q = q' ∧ d = d' := by simpa using h
            exact hq
      · split at h
        · exact Except.noConfusion h
        · split at h
          · exact Except.noConfusion h
          · obtain ⟨rfl, rfl⟩ : q = q' ∧ d = d' := by simpa using h
            exact hq
      · have hp1 : ∀ a ∈ as, 0 < amountVal a := by
          have := hps.1
          simp only [posOutcome, hA, Option.getD_some, List.all_eq_true,
            decide_eq_true_eq] at this
          exact this
        cases hP : processAssets as q with
        | error u =>
          simp only [hP] at h
          exact Except.noConfusion h
        | ok q1 =>
          simp only [hP] at h
          have hq1 : ∀ e ∈ q1, 1 ≤ e.2 :=
            processAssets_pos as q q1 hP hp1 hq
          split at h
          · exact ih (n + 1) q1 (applyDescs ds d) q' d' h hps.2 hq1
          · obtain ⟨rfl, rfl⟩ : q1 = q' ∧ applyDescs ds d = d' := by
              simpa using h
            exact hq1

/-- Claim C8: every item of a successfully returned inventory has quantity
at least 1, for every response sequence whose asset records carry positive
amounts. -/
theorem claim8_quantities_positive (responses : List PageOutcome) (inv : Items)
    (hok : fetch_steam_inventory responses = .ok inv)
    (hpos : posResponses responses = true) :
    ∀ e ∈ inv, 1 ≤ e.2.quantity := by
  rw [fetch_steam_inventory] at hok
  cases hfl : fetchLoop responses 1 [] [] with
  | error e =>
    rw [hfl] at hok
    exact Except.noConfusion hok
  | ok st =>
    obtain ⟨q, d⟩ := st
    rw [hfl] at hok
    have hinv : joinStep d q [] = inv := by simpa using hok
    have hqpos : ∀ e ∈ q, 1 ≤ e.2 :=
      fetchLoop_pos responses 1 [] [] q d hfl hpos (by simp)
    rw [← hinv]
    exact joinStep_pos d q hqpos [] (by simp)

/-- Witness for C8: the one-page fetch yields an inventory whose single item
has quantity 3. -/
theorem claim8_quantities_positive_witness :
    fetch_steam_inventory [PageOutcome.page pageTwo] = .ok invTwo ∧
    posResponses [PageOutcome.page pageTwo] = true ∧
    ∀ e ∈ invTwo, 1 ≤ e.2.quantity :=
  ⟨by rfl, by decide,
    claim8_quantities_positive [PageOutcome.page pageTwo] invTwo (by rfl)
      (by decide)⟩

/-! Quantity and metadata characterization of the join for described
classids. -/

theorem qtyAt_stepJoin_desc (d : DescMap) (acc : Items) (c : Option String)
    (n : Int) (desc : Desc) (hd : lookupA d c = some desc) (k : String) :
    qtyAt (stepJoin d acc c n) k =
      qtyAt acc k + (if joinKey d c = k then n else 0) := by
  have hkey : joinKey d c = descKey desc c := by rw [joinKey, hd]
  simp only [stepJoin, hd]
  by_cases hin : (lookupA acc (descKey desc c)).isSome
  · rw [if_pos hin]
    rcases Option.isSome_iff_exists.mp hin with ⟨it0, hit0⟩
    by_cases hk : joinKey d c = k
    · rw [if_pos hk]
      rw [hkey] at hk
      subst hk
      rw [qtyAt, lookupA_addQty, if_pos rfl, hit0]
      simp [qtyAt, hit0]
    · rw [if_neg hk]
      rw [hkey] at hk
      rw [qtyAt, lookupA_addQty, if_neg (fun hh => hk hh.symm)]
      simp [qtyAt]
  · rw [if_neg hin]
    have hnone : lookupA acc (descKey desc c) = none :=
      Option.not_isSome_iff_eq_none.mp hin
    rw [addQty_append_fresh acc _ _ n hnone]
    by_cases hk : joinKey d c = k
    · rw [if_pos hk]
      rw [hkey] at hk
      subst hk
      rw [qtyAt, lookupA_append, hnone]
      simp [lookupA, qtyAt, hnone, itemOfDesc, orEl]
    · rw [if_neg hk]
      rw [hkey] at hk
      rw [qtyAt, lookupA_append]
      have : lookupA [(descKey desc c,
          { itemOfDesc desc c with
              quantity := (itemOfDesc desc c).quantity + n })] k = none := by
        simp [lookupA, hk]
      rw [this, orEl_none_right]
      simp [qtyAt]

theorem metaAt_stepJoin_desc (d : DescMap) (acc : Items) (c : Option String)
    (n : Int) (desc : Desc) (hd : lookupA d c = some desc) (k : String) :
    (lookupA (stepJoin d acc c n) k).map metaOf =
      orEl ((lookupA acc k).map metaOf)
        (if joinKey d c = k then some (metaOf (itemOfDesc desc c)) else none) := by
  have hkey : joinKey d c = descKey desc c := by rw [joinKey, hd]
  simp only [stepJoin, hd]
  by_cases hin : (lookupA acc (descKey desc c)).isSome
  · rw [if_pos hin]
    rcases Option.isSome_iff_exists.mp hin with ⟨it0, hit0⟩
    by_cases hk : joinKey d c = k
    · rw [if_pos hk]
      rw [hkey] at hk
      subst hk
      rw [lookupA_addQty, if_pos rfl, hit0]
      simp [metaOf, orEl]
    · rw [if_neg hk]
      rw [hkey] at hk
      rw [lookupA_addQty, if_neg (fun hh => hk hh.symm)]
      cases lookupA acc k <;> simp [orEl]
  · rw [if_neg hin]
    have hnone : lookupA acc (descKey desc c) = none :=
      Option.not_isSome_iff_eq_none.mp hin
    rw [addQty_append_fresh acc _ _ n hnone]
    by_cases hk : joinKey d c = k
    · rw [if_pos hk]
      rw [hkey] at hk
      subst hk
      rw [lookupA_append, hnone]
      simp [lookupA, orEl, metaOf]
    · rw [if_neg hk]
      rw [hkey] at hk
      rw [lookupA_append]
      have : lookupA [(descKey desc c,
          { itemOfDesc desc c with
              quantity := (itemOfDesc desc c).quantity + n })] k = none := by
        simp [lookupA, hk]
      rw [this, orEl_none_right]
      cases lookupA acc k <;> simp [orEl]

theorem qtyAt_joinStep (d : DescMap) (q : QtyMap) :
    (∀ e ∈ q, (lookupA d e.1).isSome = true) →
    ∀ (acc : Items) (k : String),
      qtyAt (joinStep d q acc) k = qtyAt acc k + sumKey d q k := by
  induction q with
  | nil =>
    intro _ acc k
    simp [joinStep, sumKey]
  | cons e rest ih =>
    obtain ⟨c, n⟩ := e
    intro h acc k
    have hc : (lookupA d c).isSome = true := h (c, n) (by simp)
    rcases Option.isSome_iff_exists.mp hc with ⟨desc, hdesc⟩
    have hrest : ∀ e ∈ rest, (lookupA d e.1).isSome = true :=
      fun e he => h e (by simp [he])
    show qtyAt (joinStep d rest (stepJoin d acc c n)) k = _
    rw [ih hrest, qtyAt_stepJoin_desc d acc c n desc hdesc k]
    have hsum : sumKey d ((c, n) :: rest) k =
        (if joinKey d c = k then n else 0) + sumKey d rest k := by
      by_cases hk : joinKey d c = k <;>
        simp [sumKey, List.filter_cons, hk]
    rw [hsum]
    ring

theorem metaAt_joinStep (d : DescMap) (q : QtyMap) :
    (∀ e ∈ q, (lookupA d e.1).isSome = true) →
    ∀ (acc : Items) (k : String),
      (lookupA (joinStep d q acc) k).map metaOf =
        orEl ((lookupA acc k).map metaOf) (firstMetaFor d q k) := by
  induction q with
  | nil =>
    intro _ acc k
    rw [joinStep, firstMetaFor]
    simp only [List.find?_nil]
    rw [orEl_none_right]
  | cons e rest ih =>
    obtain ⟨c, n⟩ := e
    intro h acc k
    have hc : (lookupA d c).isSome = true := h (c, n) (by simp)
    rcases Option.isSome_iff_exists.mp hc with ⟨desc, hdesc⟩
    have hrest : ∀ e ∈ rest, (lookupA d e.1).isSome = true :=
      fun e he => h e (by simp [he])
    show (lookupA (joinStep d rest (stepJoin d acc c n)) k).map metaOf = _
    rw [ih hrest, metaAt_stepJoin_desc d acc c n desc hdesc k, orEl_assoc]
    have hfirst : firstMetaFor d ((c, n) :: rest) k =
        orEl (if joinKey d c = k then some (metaOf (itemOfDesc desc c)) else none)
          (firstMetaFor d rest k) := by
      by_cases hk : joinKey d c = k
      · rw [if_pos hk]
        have hb : decide (joinKey d c = k) = true := decide_eq_true hk
        rw [firstMetaFor]
        simp only [List.find?_cons, hb]
        simp [hdesc, orEl]
      · rw [if_neg hk]
        have hb : decide (joinKey d c = k) = false := decide_eq_false hk
        rw [firstMetaFor]
        simp only [List.find?_cons, hb]
        rfl
    rw [hfirst]

/-- Claim C3 (amended): whenever the classids of the accumulated quantity
table all have matching descriptions, each item of the joined inventory has
quantity equal to the sum of the quantities of the classids resolving to its
key, and carries the metadata of the first such classid. As the
counterexample shows, the claim's extension to a classid with no matching
description whose synthesized key collides with an existing key fails: there
the join replaces the entry (dict assignment) instead of merging. -/
theorem claim3_same_key_merge (d : DescMap) (q : QtyMap)
    (hdesc : ∀ e ∈ q, (lookupA d e.1).isSome = true) (k : String)
    (it : InventoryItem) (hit : lookupA (joinStep d q []) k = some it) :
    it.quantity = sumKey d q k ∧
    some (metaOf it) = firstMetaFor d q k := by
  constructor
  · have h0 := qtyAt_joinStep d q hdesc [] k
    rw [qtyAt, hit] at h0
    simpa [qtyAt, lookupA] using h0
  · have h0 := metaAt_joinStep d q hdesc [] k
    rw [hit] at h0
    simpa [lookupA, orEl] using h0

/-- Witness for the amended C3: classids `c1` (quantity 2) and `c2`
(quantity 3) both resolve to key `SameKey`; the merged item has quantity 5
and the metadata of `c1`. -/
theorem claim3_same_key_merge_witness :
    (∀ e ∈ qMerge, (lookupA dMerge e.1).isSome = true) ∧
    lookupA (joinStep dMerge qMerge []) "SameKey" = some itMerge ∧
    (itMerge.quantity = sumKey dMerge qMerge "SameKey" ∧
      some (metaOf itMerge) = firstMetaFor dMerge qMerge "SameKey") :=
  ⟨by decide, by decide,
    claim3_same_key_merge dMerge qMerge (by decide) "SameKey" itMerge
      (by decide)⟩

/-- Counterexample to C3 as stated: on `pageCollide`, described classid `1`
(quantity 3) and undescribed classid `2` (quantity 5) both resolve to key
`"Unknown Item (ClassID: 2)"`, yet the resulting item has quantity 5, not
the sum `3 + 5`: the undescribed branch of the join overwrites the entry
instead of adding to it. -/
theorem claim3_counterexample :
    okQuantityAt (fetch_steam_inventory [PageOutcome.page pageCollide])
        "Unknown Item (ClassID: 2)" = some 5 ∧
    ¬(5 : Int) = 3 + 5 := by decide

/-- Claim C6: the join keys a classid with accumulated quantity as follows:
with a matching description, the key is its `market_hash_name`, falling back
to its `name`, falling back to `"Unknown Item {classId}"`; with no matching
description the item is keyed `"Unknown Item (ClassID: {classId})"` with
empty icon, empty tags, `tradable = false` and `marketable = false`. -/
theorem claim6_join_key_cases (d : DescMap) (c : Option String) (qty : Int) :
    joinStep d [(c, qty)] [] =
      match lookupA d c with
      | some desc =>
        [(match desc.market_hash_name with
          | some m => m
          | none =>
            match desc.name with
            | some nm => nm
            | none => "Unknown Item " ++ showC c,
          { itemOfDesc desc c with quantity := qty })]
      | none =>
        [("Unknown Item (ClassID: " ++ showC c ++ ")",
          { quantity := qty, icon_url := "",
            name := "Unknown Item (ClassID: " ++ showC c ++ ")",
            classid := c, tradable := false, marketable := false,
            tags := [] })] := by
  rcases hd : lookupA d c with _ | desc
  · simp [joinStep, stepJoin, hd, setItem]
  · rcases hm : desc.market_hash_name with _ | m <;>
      rcases hn : desc.name with _ | nm <;>
      simp [joinStep, stepJoin, hd, descKey, hm, hn, lookupA, addQty,
        itemOfDesc]

/-- Claim C7: the Differ's three mappings contain precisely the owner items
with quantity above 1 that are tradable, those of them whose key is absent
from the counterpart inventory, and symmetrically the counterpart items with
quantity above 1, tradable, whose key is absent from the owner inventory. -/
theorem claim7_differ_membership (fixed_user_inv your_inv : Items)
    (k : String) (it : InventoryItem) :
    ((k, it) ∈ (analyze_inventories_for_streamlit fixed_user_inv
          your_inv).fixed_user_tradable_duplicates ↔
      (k, it) ∈ fixed_user_inv ∧ 1 < it.quantity ∧ it.tradable = true) ∧
    ((k, it) ∈ (analyze_inventories_for_streamlit fixed_user_inv
          your_inv).fixed_user_has_you_dont_dupes ↔
      (k, it) ∈ fixed_user_inv ∧ 1 < it.quantity ∧ it.tradable = true ∧
        lookupA your_inv k = none) ∧
    ((k, it) ∈ (analyze_inventories_for_streamlit fixed_user_inv
          your_inv).you_have_fixed_user_doesnt_dupes ↔
      (k, it) ∈ your_inv ∧ 1 < it.quantity ∧ it.tradable = true ∧
        lookupA fixed_user_inv k = none) := by
  refine ⟨?_, ?_, ?_⟩ <;>
    simp [analyze_inventories_for_streamlit, List.mem_filter,
      Option.not_isSome_iff_eq_none, and_assoc]

/-- Claim C9: the `counterpartHasOwnerLacks` mapping of `diff(A, B)` equals
the `ownerHasCounterpartLacks` mapping of `diff(B, A)`. -/
theorem claim9_diff_symmetry (a b : Items) :
    (analyze_inventories_for_streamlit a b).you_have_fixed_user_doesnt_dupes =
      (analyze_inventories_for_streamlit b a).fixed_user_has_you_dont_dupes :=
  rfl

end STrades
